import Mathlib

/-!
Verification development for the cidercellar repository index builder
(src/cidercellar/scan.py).

The Python source is shallowly embedded:
* email.message.Message values are ordered association lists of headers;
  Message.__setitem__ appends a header (it never replaces an existing one),
  Message.__contains__ compares field names case-insensitively.
* Python dicts (the package tree, the hash bookkeeping dict) are ordered
  association lists with insert-at-end / update-in-place semantics.
* File contents are Strings; compression codecs and hash functions are
  abstract parameters (an Env), since they live in external libraries.
* The vendored pydpkg module is not part of src/; the pieces scan.py uses
  (Dpkg records, HASHES, the version comparison algorithm) are modelled
  from the specification and marked as such.
-/

namespace Cider


/-- Header value of an email.message.Message header.  Python code assigns
the empty list to a header in DebianTree.__init__ ("remove any hashes"),
which appends a list-valued header; hence the dedicated constructor. -/
inductive HVal where
  | str (s : String)
  | emptyList
deriving DecidableEq

/-- Ordered header list of an email.message.Message. -/
abbrev Headers := List (String × HVal)

/-- Lower-casing of a string, character by character (Python str.lower on
the ASCII field names involved). -/
def lowerStr (s : String) : String := String.mk (s.toList.map Char.toLower)

/-- Upper-casing of a string, character by character (Python str.upper on
the ASCII digest names involved). -/
def upperStr (s : String) : String := String.mk (s.toList.map Char.toUpper)

/-- Python str.startswith. -/
def strStartsWith (pre s : String) : Bool := pre.toList.isPrefixOf s.toList

/-- Case-insensitive membership test, email.message.Message.__contains__. -/
def msgContains (m : Headers) (name : String) : Bool :=
  m.any (fun p => lowerStr p.1 == lowerStr name)

/-- Assignment msg[name] = v of email.message.Message: appends a new header,
never deletes or overwrites an existing header of the same name. -/
def msgSet (m : Headers) (name : String) (v : HVal) : Headers :=
  m ++ [(name, v)]

/-- Number of headers with exactly the given field name. -/
def countName (m : Headers) (name : String) : Nat :=
  (m.filter (fun p => p.1 == name)).length

/-- Modelled from the spec: pydpkg.HASHES, the fixed four digest kinds keyed
by their hashlib names (spec sections 3 and 4.1). -/
def HASHES : List String := ["md5", "sha1", "sha256", "sha512"]

/-- Embedding of scan.py _actual: canonical manifest field name of a hashlib
digest name (upper-case, MD5 becomes MD5Sum). -/
def _actual (name : String) : String :=
  let n := upperStr name
  if n = "MD5" then n ++ "Sum" else n

/-- Embedding of scan.py PACKAGES_COMPRESSION: known compression suffixes for
the Packages file mapped to module names, in dict insertion order. -/
def PACKAGES_COMPRESSION : List (String × String) :=
  [(".gz", "gzip"), (".bz2", "bz2"), (".xz", "lzma")]

/-- Embedding of scan.py module constant GZIP. -/
def GZIP : String := ".gz"

/-- Embedding of scan.py module constant BZIP2. -/
def BZIP2 : String := ".bz2"

/-- Embedding of scan.py module constant XZ. -/
def XZ : String := ".xz"

/-- Modelled from the spec: one pydpkg.Dpkg archive record as scan.py uses
it; the control paragraph (message), the indexing fields, the file path
components, the file size and the four content digests (spec section 3,
PackageRecord). -/
structure Dpkg where
  package : String
  version : String
  architecture : String
  message : List (String × String)
  body : String
  filename : List String
  filesize : Nat
  md5 : String
  sha1 : String
  sha256 : String
  sha512 : String
deriving DecidableEq

/-- Modelled from the spec: the digest part of pydpkg.Dpkg.fileinfo after
filesize has been popped, in the dict order that yields the documented
paragraph field order MD5Sum, SHA1, SHA256, SHA512 (spec section 4.5). -/
def fileinfoDigests (d : Dpkg) : List (String × String) :=
  [("md5", d.md5), ("sha1", d.sha1), ("sha256", d.sha256), ("sha512", d.sha512)]

/-- Lookup in an ordered association list (Python dict access). -/
def alistGet {α : Type} : List (String × α) → String → Option α
  | [], _ => none
  | (k', v') :: rest, k => if k' = k then some v' else alistGet rest k

/-- Update in an ordered association list (Python dict assignment): an
existing key keeps its position, a new key is appended at the end. -/
def alistSet {α : Type} (l : List (String × α)) (k : String) (v : α) :
    List (String × α) :=
  match l with
  | [] => [(k, v)]
  | (k', v') :: rest =>
    if k' = k then (k, v) :: rest else (k', v') :: alistSet rest k v

/-- Grouping key used by DebianTree._add_deb: the delimited string
version + "/" + architecture. -/
def vkey (d : Dpkg) : String := d.version ++ "/" ++ d.architecture

/-- Package tree: package name mapped to an inner dict from the delimited
version/architecture key to the record, both in insertion order. -/
abbrev Tree := List (String × List (String × Dpkg))

/-- Embedding of DebianTree._add_deb: insert a record under its package name
and delimited version/architecture key (last-scanned wins on key collision). -/
def addDeb (tr : Tree) (d : Dpkg) : Tree :=
  alistSet tr d.package
    (alistSet ((alistGet tr d.package).getD []) (vkey d) d)

/-! Version comparison.  scan.py calls pydpkg.Dpkg.compare_versions, which is
not under src/; the algorithm is modelled from spec section 4.2. -/

/-- Modelled from the spec: character order of the segment algorithm. The
tilde sorts lowest (rank 0), end-of-run has rank 1 (handled in cmpNonDigit),
then all other characters: non-alphanumeric characters first in code-point
order, then letters (spec section 4.2). -/
def charRank (c : Char) : Nat :=
  if c = '~' then 0
  else if c.isAlpha then 2 + 1114112 + c.toNat
  else 2 + c.toNat

/-- Modelled from the spec: comparison of two non-digit runs character by
character; an exhausted run sorts above a tilde but below anything else. -/
def cmpNonDigit : List Char → List Char → Int
  | [], [] => 0
  | [], c :: _ => if c = '~' then 1 else -1
  | c :: _, [] => if c = '~' then -1 else 1
  | a :: as, b :: bs =>
    if charRank a < charRank b then -1
    else if charRank b < charRank a then 1
    else cmpNonDigit as bs

/-- Numeric value of a digit run (leading zeros insignificant, empty run
counts as zero). -/
def digitsVal (l : List Char) : Nat :=
  l.foldl (fun n c => n * 10 + (c.toNat - 48)) 0

/-- Negation of Char.isDigit, the run splitter of the segment algorithm. -/
def notDigit (c : Char) : Bool := !c.isDigit

/-- Three-way comparison of natural numbers as an Int sign. -/
def cmpNat (a b : Nat) : Int := if a < b then -1 else if b < a then 1 else 0

/-- Modelled from the spec: segment algorithm of section 4.2 with explicit
fuel (each round consumes at least one character of a non-empty side, so the
initial fuel in cmpSegment always suffices).  Walks alternating non-digit and
digit runs, deciding at the first unequal run. -/
def cmpSegmentF : Nat → List Char → List Char → Int
  | 0, _, _ => 0
  | fuel + 1, a, b =>
    if a.isEmpty && b.isEmpty then 0
    else
      let r1 := cmpNonDigit (a.takeWhile notDigit) (b.takeWhile notDigit)
      if r1 ≠ 0 then r1
      else
        let a2 := a.dropWhile notDigit
        let b2 := b.dropWhile notDigit
        let r2 := cmpNat (digitsVal (a2.takeWhile Char.isDigit))
                         (digitsVal (b2.takeWhile Char.isDigit))
        if r2 ≠ 0 then r2
        else cmpSegmentF fuel (a2.dropWhile Char.isDigit) (b2.dropWhile Char.isDigit)

/-- Modelled from the spec: comparison of two same-role segments. -/
def cmpSegment (a b : List Char) : Int :=
  cmpSegmentF (a.length + b.length + 1) a b

/-- Modelled from the spec: the numeric epoch, the optional integer prefix
before the first colon, zero if absent (spec section 4.2 stage 1). -/
def epochOf (v : List Char) : Nat :=
  if v.contains ':' then digitsVal (v.takeWhile (fun c => c ≠ ':')) else 0

/-- Remainder of the version after the epoch prefix (unchanged when no colon
is present). -/
def afterEpoch (v : List Char) : List Char :=
  if v.contains ':' then (v.dropWhile (fun c => c ≠ ':')).drop 1 else v

/-- Upstream part: everything before the last hyphen, or the whole remainder
when no hyphen is present (spec section 4.2 stage 2). -/
def upstreamOf (v : List Char) : List Char :=
  if v.contains '-' then
    (((v.reverse).dropWhile (fun c => c ≠ '-')).drop 1).reverse
  else v

/-- Revision part: everything after the last hyphen, empty when no hyphen is
present (spec section 4.2 stage 3). -/
def revisionOf (v : List Char) : List Char :=
  if v.contains '-' then ((v.reverse).takeWhile (fun c => c ≠ '-')).reverse
  else []

/-- Modelled from the spec: pydpkg.Dpkg.compare_versions, the three-stage
epoch / upstream / revision comparison of spec section 4.2, short-circuiting
at the first unequal stage. -/
def cmpVersions (v1 v2 : String) : Int :=
  let a := v1.toList
  let b := v2.toList
  let e := cmpNat (epochOf a) (epochOf b)
  if e ≠ 0 then e
  else
    let a := afterEpoch a
    let b := afterEpoch b
    let cu := cmpSegment (upstreamOf a) (upstreamOf b)
    if cu ≠ 0 then cu else cmpSegment (revisionOf a) (revisionOf b)

/-- Number of occurrences of a character in a string. -/
def countChar (s : String) (c : Char) : Nat := s.toList.count c

/-- First component of Python str.partition: the part before the first
occurrence of the separator, or the whole string when absent. -/
def partBefore (s : String) (c : Char) : String :=
  String.mk (s.toList.takeWhile (fun x => x != c))

/-- Embedding of the key normalization inside scan.py _compare_versions: a
key is stripped to the part before the slash only when it contains exactly
one slash. -/
def stripKey (v : String) : String :=
  if countChar v '/' = 1 then partBefore v '/' else v

/-- Embedding of scan.py _compare_versions: a ONE-parameter function whose
single argument is unpacked as a pair of keys, each stripped and then
compared.  The program only ever hands this function to
functools.cmp_to_key, which calls it with two positional arguments, so the
body is never reached at runtime (see sortedByCmpToKey). -/
def _compare_versions (versions : String × String) : Int :=
  cmpVersions (stripKey versions.1) (stripKey versions.2)

/-- Boolean at-most relation on strings (Python string comparison is
code-point lexicographic, as is the String order here). -/
def strLe (a b : String) : Bool := decide (a ≤ b)

/-- Stable insertion of an element into a list: placed before the first
element it is at-most related to. -/
def ordInsert {α : Type} (le : α → α → Bool) (a : α) : List α → List α
  | [] => [a]
  | b :: l => if le a b then a :: b :: l else b :: ordInsert le a l

/-- Stable insertion sort, the model of Python sorted (any stable sort
computes the same list when the comparator is a total preorder). -/
def isort {α : Type} (le : α → α → Bool) : List α → List α
  | [] => []
  | a :: l => ordInsert le a (isort le l)

/-! The DebianTree class and its build pipeline. -/

/-- Errors surfaced by the embedded build pipeline.  debError is the DebError
exception of scan.py; keyError models the KeyError of an unknown compression
format looked up in PACKAGES_COMPRESSION; valueError models the ValueError of
pathlib relative_to on a file outside the root; typeError models the
TypeError raised when sorted invokes the one-parameter _compare_versions
with two arguments, and also the TypeError of the email generator on a
list-valued header; indexError models the IndexError of version_names[0]
on an empty inner dict. -/
inductive BuildErr where
  | debError
  | keyError
  | valueError
  | typeError
  | indexError
deriving DecidableEq

/-- Model of Python sorted(version_names, key=functools.cmp_to_key(
_compare_versions)): cmp_to_key invokes the comparator with two positional
arguments, but _compare_versions takes a single parameter, so the first
comparison raises TypeError (takes 1 positional argument but 2 were given).
Python's sort performs no comparison on a list of length at most one and at
least one comparison otherwise, hence the sort succeeds exactly on such
lists, returning them unchanged. -/
def sortedByCmpToKey : List String → Except BuildErr (List String)
  | [] => Except.ok []
  | [v] => Except.ok [v]
  | _ => Except.error BuildErr.typeError

/-- External-collaborator environment: compression codecs (keyed by format
suffix) and hex digest functions (keyed by hashlib name), both modelled as
pure functions of the content. -/
structure Env where
  compress : String → String → String
  hashHex : String → String → String

/-- Embedding of the DebianTree instance state after __init__: repository
root (as path components), the parsed Release manifest headers, the scan
configuration and the package tree. -/
structure DebianTree where
  root : List String
  release : Headers
  debtype : String
  arch : Option String
  multiversion : Bool
  tree : Tree
deriving DecidableEq

/-- Embedding of the hash-clearing loop in DebianTree.__init__: for each
hashlib name found (case-insensitively) among the Release headers, a new
header with an empty-list value is appended; email.message.Message assignment
never deletes the existing header, so nothing is actually erased. -/
def clearHashes (release : Headers) : Headers :=
  HASHES.foldl
    (fun r h => if msgContains r h then msgSet r h HVal.emptyList else r)
    release

/-- Embedding of DebianTree.__init__: the Release file has been parsed into
plain string headers; the constructor stores the configuration, runs the
(ineffective) hash-clearing loop and starts with an empty tree. -/
def DebianTree.mkInit (root : List String) (release : List (String × String))
    (debtype : String) (arch : Option String) (multiversion : Bool) :
    DebianTree :=
  { root := root
    release := clearHashes (release.map (fun p => (p.1, HVal.str p.2)))
    debtype := debtype
    arch := arch
    multiversion := multiversion
    tree := [] }

/-- Embedding of DebianTree.find_debs: every discovered archive record (in
glob enumeration order) is added to the tree, skipping records whose
architecture does not match the configured filter. -/
def findDebs (t : DebianTree) (debs : List Dpkg) : DebianTree :=
  { t with
    tree := debs.foldl
      (fun tr d =>
        match t.arch with
        | some a => if d.architecture = a then addDeb tr d else tr
        | none => addDeb tr d)
      t.tree }

/-- Embedding of DebianTree._build for one package: sort the inner dict keys
with functools.cmp_to_key(_compare_versions) — which raises TypeError as
soon as one comparison happens, that is whenever the package holds two or
more keys — then reverse so the latest version comes first; when
multiversion is off take the part of the first key before its slash
(IndexError on an empty inner dict, which a populated tree never has) and
keep only the keys that START WITH it; finally yield the stored records. -/
def buildPackage (versions : List (String × Dpkg)) (multiversion : Bool) :
    Except BuildErr (List Dpkg) :=
  match sortedByCmpToKey (versions.map Prod.fst) with
  | Except.error e => Except.error e
  | Except.ok sorted0 =>
    let names0 := sorted0.reverse
    match multiversion, names0 with
    | true, _ => Except.ok (names0.filterMap (fun v => alistGet versions v))
    | false, [] => Except.error BuildErr.indexError
    | false, v0 :: _ =>
      let latest := partBefore v0 '/'
      Except.ok ((names0.filter (fun v => strStartsWith latest v)).filterMap
        (fun v => alistGet versions v))

/-- Serialization of one plain header as str() of a Message writes it
(as_string at maxheaderlen 0: no folding; the value follows the colon and a
single space verbatim, also when it is empty or spans several lines). -/
def serializeHeader (p : String × String) : String :=
  p.1 ++ ": " ++ p.2 ++ "\n"

/-- Serialization of a whole message: the headers, a blank separator line
and the body (str of an email.message.Message). -/
def serializeMsg (hs : List (String × String)) (body : String) : String :=
  String.join (hs.map serializeHeader) ++ "\n" ++ body

/-- Python "\n".join. -/
def joinNl : List String → String
  | [] => ""
  | [s] => s
  | s :: rest => s ++ "\n" ++ joinNl rest

/-- Splitting a character list at newline characters (the inverse of joinNl
on newline-free parts). -/
def splitNlC : List Char → List (List Char)
  | [] => [[]]
  | c :: rest =>
    if c = '\n' then [] :: splitNlC rest
    else
      match splitNlC rest with
      | [] => [[c]]
      | l :: ls => (c :: l) :: ls

/-- Lines of a string value, split at newlines. -/
def splitNl (s : String) : List String :=
  (splitNlC s.data).map String.mk

/-- Relative path computation of pathlib Path.relative_to on component
lists: defined when the root is a prefix of the path, a ValueError
otherwise. -/
def relativeTo (root p : List String) : Option (List String) :=
  if root.isPrefixOf p then some (p.drop root.length) else none

/-- Path components joined back into a path string. -/
def pathStr : List String → String
  | [] => ""
  | [s] => s
  | s :: rest => s ++ "/" ++ pathStr rest

/-- Embedding of the paragraph construction inside DebianTree.build for one
record: append Filename (path relative to the root) and Size to the control
message, then one header per fileinfo digest under its _actual name, and
serialize.  pathlib raises ValueError when the archive is not under the
root. -/
def paragraph (root : List String) (d : Dpkg) : Except BuildErr String :=
  match relativeTo root d.filename with
  | none => Except.error BuildErr.valueError
  | some rel =>
    let m := d.message ++ [("Filename", pathStr rel)]
    let m := m ++ [("Size", toString d.filesize)]
    let m := (fileinfoDigests d).foldl
      (fun m' p => m' ++ [(_actual p.1, p.2)]) m
    Except.ok (serializeMsg m d.body)

/-- Embedding of the paragraph loop of DebianTree.build for one package:
the records selected by _build, each turned into its index paragraph.  The
version sort inside _build raises before the first record of the package is
yielded, so a failing package contributes no paragraph at all. -/
def packageParagraphs (root : List String) (versions : List (String × Dpkg))
    (multiversion : Bool) : Except BuildErr (List String) :=
  match buildPackage versions multiversion with
  | Except.error e => Except.error e
  | Except.ok ds => ds.mapM (fun d => paragraph root d)

/-- Embedding of the outer paragraph loop of DebianTree.build: package
names in ascending lexical order, the paragraphs of each package in turn;
the first failing package (TypeError in its version sort, or ValueError on
an archive outside the root) aborts the build. -/
def buildParagraphs (root : List String) (tr : Tree) (multiversion : Bool) :
    Except BuildErr (List String) :=
  ((isort strLe (tr.map Prod.fst)).mapM
    (fun name => packageParagraphs root ((alistGet tr name).getD [])
      multiversion)).map List.flatten

/-- Record sequence of a build over a tree whose packages each hold exactly
one record — the only trees whose version sort performs no comparison and
hence does not raise: names in ascending lexical order, each package's
single stored record. -/
def singleRecordSeq (tr : Tree) : List (String × Dpkg) :=
  (isort strLe (tr.map Prod.fst)).flatMap
    (fun name => ((alistGet tr name).getD []).map (fun p => (name, p.2)))

/-- Embedding of compute_hash over already-read content: the four digests
keyed by their _actual names, in HASHES order. -/
def computeHash (env : Env) (data : String) : List (String × String) :=
  HASHES.map (fun k => (_actual k, env.hashHex k data))

/-- Append of one digest line to the bookkeeping dict entry of the given
canonical name (Python hashes[name].append(line)). -/
def appendHash (hs : List (String × List String)) (name line : String) :
    List (String × List String) :=
  hs.map (fun p => if p.1 = name then (p.1, p.2 ++ [line]) else p)

/-- Embedding of the per-format loop of DebianTree.build: look the format up
in PACKAGES_COMPRESSION (KeyError when unknown), write Packages plus suffix
(path.with_suffix replaces the previous format suffix, and the stem Packages
contains no dot, so the written name is always Packages followed by the
format), and append one digest line per hash kind of the compressed file to
the bookkeeping dict. -/
def compressLoop (env : Env) (text : String)
    (hs : List (String × List String)) :
    List String → Except BuildErr (List (String × String) × List (String × List String))
  | [] => Except.ok ([], hs)
  | f :: rest =>
    match alistGet PACKAGES_COMPRESSION f with
    | none => Except.error BuildErr.keyError
    | some _ =>
      let path := "Packages" ++ f
      let data := env.compress f text
      let hs := (computeHash env data).foldl
        (fun h p => appendHash h p.1 (p.2 ++ " " ++ toString data.length ++ " " ++ path))
        hs
      match compressLoop env text hs rest with
      | Except.error e => Except.error e
      | Except.ok (ws, hs') => Except.ok ((path, data) :: ws, hs')

/-- Serialization of one Release header; the email generator cannot fold
the list value Python assigned in the clearing loop (CPython raises a
TypeError inside the compat32 policy), modelled as none. -/
def serializeHVal (name : String) : HVal → Option String
  | HVal.str s => some (serializeHeader (name, s))
  | HVal.emptyList => none

/-- Serialization of the Release record (str of the message); fails when any
header still holds the list value of the clearing loop. -/
def serializeRelease (hs : Headers) (body : String) : Option String :=
  (hs.mapM (fun p => serializeHVal p.1 p.2)).map
    (fun ls => String.join ls ++ "\n" ++ body)

/-- Build outputs: the returned Packages text, the compressed index
artifacts written to disk (file name and content, in write order), and the
bytes written over the Release file. -/
structure BuildOut where
  text : String
  writes : List (String × String)
  releaseWritten : String
deriving DecidableEq

/-- Embedding of DebianTree.build.  The empty-format check raises DebError
before any I/O; then find_debs populates the tree, the paragraphs are
emitted in buildParagraphs order and concatenated, each requested format is
compressed and digest-tracked, the digest lists are joined with newlines and
appended to the Release headers, and the Release file is rewritten. -/
def buildRun (env : Env) (t : DebianTree) (debs : List Dpkg)
    (formats : List String) : Except BuildErr (DebianTree × BuildOut) :=
  if formats.isEmpty then Except.error BuildErr.debError
  else
    let t1 := findDebs t debs
    match buildParagraphs t1.root t1.tree t1.multiversion with
    | Except.error e => Except.error e
    | Except.ok paragraphs =>
      let text := String.join paragraphs
      let hs0 := HASHES.map (fun k => (_actual k, [""]))
      match compressLoop env text hs0 formats with
      | Except.error e => Except.error e
      | Except.ok (writes, hs) =>
        let release := hs.foldl
          (fun r p => msgSet r p.1 (HVal.str (joinNl p.2))) t1.release
        match serializeRelease release "" with
        | none => Except.error BuildErr.typeError
        | some s =>
          Except.ok
            ({ t1 with release := release },
             { text := text, writes := writes, releaseWritten := s })

/-- Digest entries of a manifest field: the non-empty lines of every header
whose name matches the given canonical name case-insensitively, in header
order. -/
def digestLines (hs : Headers) (name : String) : List String :=
  (hs.filter (fun p => lowerStr p.1 == lowerStr name)).flatMap
    (fun p =>
      match p.2 with
      | HVal.str s => (splitNl s).filter (fun l => l ≠ "")
      | HVal.emptyList => [])

/-- Relative path components of a record under the root (defined, by the
build preconditions, whenever the archive lies under the root). -/
def relParts (root : List String) (d : Dpkg) : List String :=
  (relativeTo root d.filename).getD []

/-- Normal form of one emitted index paragraph: the archive control fields
followed by Filename, Size and the four digest fields under their canonical
names, serialized. -/
def paragraphStr (root : List String) (d : Dpkg) : String :=
  serializeMsg
    (d.message ++
      [("Filename", pathStr (relParts root d)), ("Size", toString d.filesize),
       ("MD5Sum", d.md5), ("SHA1", d.sha1), ("SHA256", d.sha256),
       ("SHA512", d.sha512)]) d.body

/-- Whether a header value is a plain string (serialization succeeds). -/
def hvalIsStr : HVal → Bool
  | HVal.str _ => true
  | HVal.emptyList => false

/-- Total serialization of one Release header, empty output on the
list-valued case that never occurs in a successful build. -/
def serializeHValStr (name : String) : HVal → String
  | HVal.str s => serializeHeader (name, s)
  | HVal.emptyList => ""

/-- Total serialization of a Release record with string-valued headers. -/
def serializeReleaseStr (hs : Headers) (body : String) : String :=
  String.join (hs.map (fun p => serializeHValStr p.1 p.2)) ++ "\n" ++ body

/-- One manifest digest line of the artifact of one compression format:
hex digest of the compressed content, its size and the artifact name. -/
def mkLine (env : Env) (k f text : String) : String :=
  env.hashHex k (env.compress f text) ++ " " ++
    toString (env.compress f text).length ++ " " ++ ("Packages" ++ f)

/-- Uncompressed index text of a successful build (one over a tree whose
packages each hold a single record): the concatenation of the normal form
paragraphs in emission order. -/
def indexText (t : DebianTree) (debs : List Dpkg) : String :=
  String.join ((singleRecordSeq (findDebs t debs).tree).map
    (fun p => paragraphStr t.root p.2))

/-- Digest header of one hash kind after a successful build: the joined
digest list seeded with the empty string, one line per format in request
order. -/
def digestHeader (env : Env) (k : String) (formats : List String)
    (text : String) : String × HVal :=
  (_actual k, HVal.str (joinNl ("" :: formats.map (fun f => mkLine env k f text))))

/-- Release headers after a successful build: the pre-existing headers
followed by the four appended digest headers. -/
def finalRelease (env : Env) (t : DebianTree) (debs : List Dpkg)
    (formats : List String) : Headers :=
  t.release ++ HASHES.map (fun k => digestHeader env k formats (indexText t debs))

/-- Embedding of the probe loop of extract_packages: try the known
compression suffixes of the Packages file in PACKAGES_COMPRESSION order and
return the first hit, decompressed and parsed; None when no candidate
exists. -/
def extractLoop (fs : String → Option String)
    (decompress : String → String → String)
    (parse : String → List (String × String)) :
    List (String × String) → Option (List (String × String))
  | [] => none
  | (ext, _) :: rest =>
    match fs ("Packages" ++ ext) with
    | none => extractLoop fs decompress parse rest
    | some content => some (parse (decompress ext content))

/-- Embedding of scan.py extract_packages over an abstract directory
listing fs (file name to content), decompressors and the message parser. -/
def extract_packages (fs : String → Option String)
    (decompress : String → String → String)
    (parse : String → List (String × String)) :
    Option (List (String × String)) :=
  extractLoop fs decompress parse PACKAGES_COMPRESSION

/-! Concrete scenario fixtures. -/

/-- Archive record foo, version 1.0, architecture all, under root r. -/
def fooDeb : Dpkg :=
  { package := "foo", version := "1.0", architecture := "all",
    message := [("Package", "foo"), ("Version", "1.0"), ("Architecture", "all")],
    body := "", filename := ["r", "d", "foo.deb"], filesize := 3,
    md5 := "m5", sha1 := "s1", sha256 := "s2", sha512 := "s5" }

/-- Archive record foo, pre-release version 1.0~rc1, architecture all. -/
def fooDebRc : Dpkg :=
  { fooDeb with
    version := "1.0~rc1"
    message := [("Package", "foo"), ("Version", "1.0~rc1"), ("Architecture", "all")] }

/-- Tree populated with the 1.0 and 1.0~rc1 records of package foo. -/
def c1Tree : Tree := addDeb (addDeb [] fooDeb) fooDebRc

/-- Inner version dict of package foo in c1Tree. -/
def c1Inner : List (String × Dpkg) := (alistGet c1Tree "foo").getD []

/-- Record of package p whose architecture contains a slash. -/
def c5SlashArch : Dpkg :=
  { fooDeb with
    package := "p"
    version := "1.0"
    architecture := "a/b" }

/-- Record of package p whose version contains a slash; its (version,
architecture) pair differs from c5SlashArch but the delimited grouping key
is the same string 1.0/a/b. -/
def c5SlashVer : Dpkg :=
  { fooDeb with
    package := "p"
    version := "1.0/a"
    architecture := "b" }

/-- Archive record pkg 1.0 all, first half of the two-version end-to-end
scenario of the specification. -/
def pkgDeb10 : Dpkg :=
  { fooDeb with
    package := "pkg"
    message := [("Package", "pkg"), ("Version", "1.0"), ("Architecture", "all")] }

/-- Archive record pkg 2.0 all, the later version of the same package. -/
def pkgDeb20 : Dpkg :=
  { pkgDeb10 with
    version := "2.0"
    message := [("Package", "pkg"), ("Version", "2.0"), ("Architecture", "all")] }

/-- Tree holding both stored versions of package pkg. -/
def c6CrashTree : Tree := addDeb (addDeb [] pkgDeb10) pkgDeb20

/-- Concrete environment with deterministic codecs and digests. -/
def envC : Env :=
  { compress := fun f s => "Z" ++ f ++ s, hashHex := fun k _ => "h-" ++ k }

/-- Fresh builder over root r with an empty-body Release file (no headers)
and default configuration. -/
def c2St0 : DebianTree := DebianTree.mkInit ["r"] [] "deb" none true

/-- First build of the C2 scenario. -/
def c2Run1 : Except BuildErr (DebianTree × BuildOut) :=
  buildRun envC c2St0 [fooDeb] [GZIP]

/-- Builder state after the first build (falls back to the initial state on
error, which the theorem rules out). -/
def c2St1 : DebianTree :=
  match c2Run1 with
  | Except.ok p => p.1
  | Except.error _ => c2St0

/-- Second build over the unchanged archive set. -/
def c2Run2 : Except BuildErr (DebianTree × BuildOut) :=
  buildRun envC c2St1 [fooDeb] [GZIP]

/-- MD5Sum header count of the manifest after the first build. -/
def c2Count1 : Nat :=
  match c2Run1 with
  | Except.ok p => countName p.1.release "MD5Sum"
  | Except.error _ => 1000

/-- MD5Sum header count of the manifest after the second build. -/
def c2Count2 : Nat :=
  match c2Run2 with
  | Except.ok p => countName p.1.release "MD5Sum"
  | Except.error _ => 1000

/-- Packages text returned by the first build. -/
def c2Text1 : String :=
  match c2Run1 with
  | Except.ok p => p.2.text
  | Except.error _ => "run 1 failed"

/-- Packages text returned by the second build. -/
def c2Text2 : String :=
  match c2Run2 with
  | Except.ok p => p.2.text
  | Except.error _ => "run 2 failed"

/-- Index artifacts written by the first build. -/
def c2Writes1 : List (String × String) :=
  match c2Run1 with
  | Except.ok p => p.2.writes
  | Except.error _ => []

/-- Index artifacts written by the second build. -/
def c2Writes2 : List (String × String) :=
  match c2Run2 with
  | Except.ok p => p.2.writes
  | Except.error _ => [("run 2 failed", "")]

/-- MD5Sum digest entries of the manifest after the second build. -/
def c2Lines2 : List String :=
  match c2Run2 with
  | Except.ok p => digestLines p.1.release "MD5Sum"
  | Except.error _ => []

/-- Builder constructed over a Release file that already carries a stale
MD5Sum digest field next to an Origin field. -/
def c4St0 : DebianTree :=
  DebianTree.mkInit ["r"]
    [("Origin", "X"), ("MD5Sum", "deadbeef 10 Packages.gz")] "deb" none true

/-- Build over the stale manifest. -/
def c4Run : Except BuildErr (DebianTree × BuildOut) :=
  buildRun envC c4St0 [fooDeb] [GZIP]

/-- Manifest headers after the C4 build (empty on error, which the theorem
rules out). -/
def c4Release : Headers :=
  match c4Run with
  | Except.ok p => p.1.release
  | Except.error _ => []

/-- Build of the C3 counterexample: same stale manifest, one requested
format. -/
def c3CexLines : List String :=
  match buildRun envC c4St0 [fooDeb] [GZIP] with
  | Except.ok p => digestLines p.1.release "MD5Sum"
  | Except.error _ => []

/-- Environment with a constant hex digest, for the C3 amended witness. -/
def c3Env : Env :=
  { compress := fun f s => "Z" ++ f ++ s, hashHex := fun _ _ => "beef" }

/-- C1: on the claim's own scenario (package foo storing the records
1.0/all and 1.0~rc1/all) _build yields nothing at all: sorted hands the
one-parameter _compare_versions to functools.cmp_to_key, which calls it
with two positional arguments, so the very first comparison of the
two-element key list raises TypeError, with or without allow_multiversion.
The claimed latest-version prefix sequence is never produced. -/
theorem c1_build_sort_typeerror :
    buildPackage c1Inner false = Except.error BuildErr.typeError ∧
      buildPackage c1Inner true = Except.error BuildErr.typeError ∧
      c1Inner.length = 2 := ⟨rfl, rfl, rfl⟩

/-- C5 counterexample: the two records have distinct (version, architecture)
pairs, yet inserting both leaves a single entry — the delimited string key
collides and the second insertion silently replaces the first. -/
theorem c5_distinct_pairs_collide :
    (c5SlashArch.version, c5SlashArch.architecture) ≠
        (c5SlashVer.version, c5SlashVer.architecture) ∧
      (alistGet (addDeb (addDeb [] c5SlashArch) c5SlashVer) "p").getD []
        = [("1.0/a/b", c5SlashVer)] := by decide

/-- C6 counterexample: on the specification's own end-to-end scenario
(package pkg stored in versions 1.0 and 2.0) the build does not emit the
records latest version first — it emits nothing: as soon as a package holds
two or more records, sorted raises TypeError because functools.cmp_to_key
calls the one-parameter _compare_versions with two arguments, and build
propagates the exception before writing anything. -/
theorem c6_build_sort_typeerror :
    buildPackage ((alistGet c6CrashTree "pkg").getD []) true
        = Except.error BuildErr.typeError ∧
      buildRun envC (DebianTree.mkInit ["r"] [] "deb" none true)
          [pkgDeb10, pkgDeb20] [GZIP]
        = Except.error BuildErr.typeError := ⟨rfl, rfl⟩

set_option maxRecDepth 100000 in
/-- C2: on the claimed scenario (empty-body Release, one archive foo 1.0
all) the index text and the written artifacts are identical across two
consecutive builds, but because Message assignment appends, the second
build leaves TWO MD5Sum headers in the manifest — the digest line appears
twice, not exactly once as claimed. -/
theorem c2_second_build_duplicates_md5sum :
    c2Count1 = 1 ∧ c2Count2 = 2 ∧ c2Text1 = c2Text2 ∧
      c2Writes1 = c2Writes2 ∧ c2Lines2.length = 2 := by decide

set_option maxRecDepth 100000 in
/-- C4: the clearing loop of __init__ looks up the hashlib names md5, sha1,
sha256, sha512, and md5 never matches the field name MD5Sum (even
case-insensitively), while assignment appends instead of replacing; so the
constructor leaves the stale manifest untouched, and after a build the
stale MD5Sum digest entry is still present next to the newly appended
MD5Sum header. -/
theorem c4_stale_digest_survives :
    c4St0.release
        = [("Origin", HVal.str "X"),
           ("MD5Sum", HVal.str "deadbeef 10 Packages.gz")] ∧
      countName c4Release "MD5Sum" = 2 ∧
      c4Release.contains ("MD5Sum", HVal.str "deadbeef 10 Packages.gz") = true ∧
      digestLines c4Release "MD5Sum"
        = ["deadbeef 10 Packages.gz", "h-md5 119 Packages.gz"] := by decide

set_option maxRecDepth 100000 in
/-- C3 counterexample: after a successful build with one requested format,
the MD5Sum field of the persisted manifest holds two digest entries, not
exactly one per requested format — the stale pre-existing entry survives
alongside the new one. -/
theorem c3_stale_entry_breaks_per_format_count :
    c3CexLines.length = 2 ∧ [GZIP].length = 1 := by decide

/-- C8: an empty format list makes build fail with DebError immediately,
before the tree is scanned or anything is written, for every environment,
tree state and archive set. -/
theorem c8_empty_formats_deberror (env : Env) (t : DebianTree)
    (debs : List Dpkg) :
    buildRun env t debs [] = Except.error BuildErr.debError := rfl

/-- C9: extract_packages returns the first existing candidate among
Packages.gz, Packages.bz2, Packages.xz (probe order of
PACKAGES_COMPRESSION), decompressed and parsed; and it returns the explicit
none signal exactly when no candidate file exists. -/
theorem c9_first_match_or_none (fs : String → Option String)
    (dec : String → String → String)
    (parse : String → List (String × String)) :
    (extract_packages fs dec parse =
        match PACKAGES_COMPRESSION.find? (fun p => (fs ("Packages" ++ p.1)).isSome) with
        | none => none
        | some p => (fs ("Packages" ++ p.1)).map (fun c => parse (dec p.1 c))) ∧
      (extract_packages fs dec parse = none ↔
        ∀ p ∈ PACKAGES_COMPRESSION, fs ("Packages" ++ p.1) = none) := by
  unfold extract_packages extractLoop PACKAGES_COMPRESSION
  cases h1 : fs "Packages.gz" <;>
    cases h2 : fs "Packages.bz2" <;>
      cases h3 : fs "Packages.xz" <;>
        simp [extractLoop, List.find?, h1, h2, h3]

/-! Lemmas about the stable insertion sort model and the association
lists, leading to the order theorems of the index serialization. -/

theorem mem_ordInsert {α : Type} (le : α → α → Bool) (a : α) (l : List α)
    (x : α) : x ∈ ordInsert le a l ↔ x = a ∨ x ∈ l := by
  induction l with
  | nil => simp [ordInsert]
  | cons b t ih =>
    simp only [ordInsert]
    by_cases h : le a b = true
    · simp only [if_pos h, List.mem_cons]
    · simp only [if_neg h, List.mem_cons, ih]
      tauto

theorem mem_isort {α : Type} (le : α → α → Bool) (l : List α) (x : α) :
    x ∈ isort le l ↔ x ∈ l := by
  induction l with
  | nil => simp [isort]
  | cons a t ih => simp [isort, mem_ordInsert, ih, List.mem_cons]

theorem alistGet_alistSet_self {α : Type} (l : List (String × α))
    (k : String) (v : α) : alistGet (alistSet l k v) k = some v := by
  induction l with
  | nil => simp [alistGet, alistSet]
  | cons p t ih =>
    obtain ⟨k', v'⟩ := p
    by_cases h : k' = k <;> simp [alistSet, alistGet, h, ih]

theorem alistGet_alistSet_ne {α : Type} (l : List (String × α))
    (k k' : String) (v : α) (h : k' ≠ k) :
    alistGet (alistSet l k v) k' = alistGet l k' := by
  induction l with
  | nil => simp [alistGet, alistSet, Ne.symm h]
  | cons p t ih =>
    obtain ⟨k0, v0⟩ := p
    by_cases h0 : k0 = k
    · subst h0
      simp [alistSet, alistGet, Ne.symm h]
    · simp [alistSet, alistGet, h0, ih]

theorem alistGet_mem {α : Type} (l : List (String × α)) (k : String) (v : α)
    (h : alistGet l k = some v) : (k, v) ∈ l := by
  induction l with
  | nil => simp [alistGet] at h
  | cons p t ih =>
    obtain ⟨k', v'⟩ := p
    by_cases hk : k' = k
    · subst hk
      simp [alistGet] at h
      simp [h]
    · simp [alistGet, hk] at h
      exact List.mem_cons_of_mem _ (ih h)

theorem string_mk_data (s : String) : String.mk s.data = s := rfl

theorem vkey_data (d : Dpkg) :
    (vkey d).data = d.version.data ++ '/' :: d.architecture.data := by
  simp [vkey, String.data_append]

theorem append_slash_cancel : ∀ (v1 v2 a1 a2 : List Char), '/' ∉ v1 →
    '/' ∉ v2 → v1 ++ '/' :: a1 = v2 ++ '/' :: a2 → v1 = v2 ∧ a1 = a2
  | [], [], a1, a2, _, _, he => by simpa using he
  | [], c :: t, a1, a2, _, h2, he => by
    simp only [List.nil_append, List.cons_append, List.cons.injEq] at he
    have hm : '/' ∈ c :: t := by
      rw [he.1]
      exact List.mem_cons_self c t
    exact absurd hm h2
  | c :: t, [], a1, a2, h1, _, he => by
    simp only [List.nil_append, List.cons_append, List.cons.injEq] at he
    have hm : '/' ∈ c :: t := by
      rw [← he.1]
      exact List.mem_cons_self c t
    exact absurd hm h1
  | c :: t, c' :: t', a1, a2, h1, h2, he => by
    simp only [List.cons_append, List.cons.injEq] at he
    obtain ⟨rfl, he2⟩ := he
    have ht := append_slash_cancel t t' a1 a2
      (fun h => h1 (List.mem_cons_of_mem c h))
      (fun h => h2 (List.mem_cons_of_mem c h)) he2
    exact ⟨by rw [ht.1], ht.2⟩

/-- C5 amended: after inserting two records of the same package, the record
is always retrievable under the later composite key (last wins on equal
keys, since the inner dict assignment overwrites); under the earlier key
when the composite keys differ (distinct entries are kept); and for
slash-free version strings the composite keys are equal exactly when the
(version, architecture) pairs are equal, so distinct pairs never collide
then. -/
theorem c5_amended_composite_keys (t : Tree) (d1 d2 : Dpkg)
    (hp : d2.package = d1.package) :
    (alistGet ((alistGet (addDeb (addDeb t d1) d2) d1.package).getD [])
        (vkey d2) = some d2) ∧
      (vkey d1 ≠ vkey d2 →
        alistGet ((alistGet (addDeb (addDeb t d1) d2) d1.package).getD [])
          (vkey d1) = some d1) ∧
      ('/' ∉ d1.version.data → '/' ∉ d2.version.data →
        (vkey d1 = vkey d2 ↔
          d1.version = d2.version ∧ d1.architecture = d2.architecture)) := by
  have e1 : alistGet (addDeb t d1) d1.package
      = some (alistSet ((alistGet t d1.package).getD []) (vkey d1) d1) := by
    unfold addDeb
    exact alistGet_alistSet_self _ _ _
  have e2 : addDeb (addDeb t d1) d2
      = alistSet (addDeb t d1) d1.package
          (alistSet (alistSet ((alistGet t d1.package).getD []) (vkey d1) d1)
            (vkey d2) d2) := by
    show alistSet (addDeb t d1) d2.package
        (alistSet ((alistGet (addDeb t d1) d2.package).getD []) (vkey d2) d2)
      = _
    rw [hp, e1]
    simp only [Option.getD_some]
  have e3 : alistGet (addDeb (addDeb t d1) d2) d1.package
      = some (alistSet (alistSet ((alistGet t d1.package).getD [])
          (vkey d1) d1) (vkey d2) d2) := by
    rw [e2]
    exact alistGet_alistSet_self _ _ _
  refine ⟨?_, ?_, ?_⟩
  · rw [e3]
    exact alistGet_alistSet_self _ _ _
  · intro hne
    rw [e3]
    simp only [Option.getD_some]
    rw [alistGet_alistSet_ne _ _ _ _ hne]
    exact alistGet_alistSet_self _ _ _
  · intro hv1 hv2
    constructor
    · intro he
      have hd : (vkey d1).data = (vkey d2).data := by rw [he]
      rw [vkey_data, vkey_data] at hd
      have hc := append_slash_cancel _ _ _ _ hv1 hv2 hd
      constructor
      · have hs := congrArg String.mk hc.1
        rwa [string_mk_data, string_mk_data] at hs
      · have hs := congrArg String.mk hc.2
        rwa [string_mk_data, string_mk_data] at hs
    · intro ⟨hv, ha⟩
      simp [vkey, hv, ha]

/-- C5 amended witness: concrete instantiation with the records foo 1.0 all
and foo 1.0~rc1 all, whose composite keys differ and whose version strings
are slash-free. -/
theorem c5_amended_composite_keys_witness :
    (alistGet ((alistGet (addDeb (addDeb [] fooDeb) fooDebRc) fooDeb.package).getD [])
        (vkey fooDebRc) = some fooDebRc) ∧
      (vkey fooDeb ≠ vkey fooDebRc →
        alistGet ((alistGet (addDeb (addDeb [] fooDeb) fooDebRc) fooDeb.package).getD [])
          (vkey fooDeb) = some fooDeb) ∧
      ('/' ∉ fooDeb.version.data → '/' ∉ fooDebRc.version.data →
        (vkey fooDeb = vkey fooDebRc ↔
          fooDeb.version = fooDebRc.version ∧
            fooDeb.architecture = fooDebRc.architecture)) :=
  c5_amended_composite_keys [] fooDeb fooDebRc rfl

theorem actual_md5 : _actual "md5" = "MD5Sum" := rfl

theorem actual_sha1 : _actual "sha1" = "SHA1" := rfl

theorem actual_sha256 : _actual "sha256" = "SHA256" := rfl

theorem actual_sha512 : _actual "sha512" = "SHA512" := rfl

theorem paragraph_eq_ok (root : List String) (d : Dpkg)
    (h : (relativeTo root d.filename).isSome = true) :
    paragraph root d = Except.ok (paragraphStr root d) := by
  obtain ⟨rel, hrel⟩ := Option.isSome_iff_exists.mp h
  unfold paragraph paragraphStr relParts
  rw [hrel]
  simp only [Option.getD_some, fileinfoDigests, List.foldl, actual_md5,
    actual_sha1, actual_sha256, actual_sha512, List.append_assoc,
    List.cons_append, List.singleton_append, List.nil_append]

theorem strStartsWith_partBefore (s : String) (c : Char) :
    strStartsWith (partBefore s c) s = true := by
  show (s.data.takeWhile (fun x => x != c)).isPrefixOf s.data = true
  rw [List.isPrefixOf_iff_prefix]
  exact List.takeWhile_prefix _

theorem buildPackage_single (k : String) (d : Dpkg) (mv : Bool) :
    buildPackage [(k, d)] mv = Except.ok [d] := by
  cases mv with
  | true => simp [buildPackage, sortedByCmpToKey, alistGet]
  | false =>
    simp [buildPackage, sortedByCmpToKey, alistGet, strStartsWith_partBefore]

theorem alistGet_some_of_mem_keys {α : Type} (l : List (String × α))
    (k : String) (hk : k ∈ l.map Prod.fst) :
    ∃ v, alistGet l k = some v := by
  induction l with
  | nil => simp at hk
  | cons p t ih =>
    obtain ⟨k0, v0⟩ := p
    by_cases h : k0 = k
    · exact ⟨v0, by simp [alistGet, h]⟩
    · have hk2 : k ∈ t.map Prod.fst := by
        rcases List.mem_map.mp hk with ⟨q, hq, hq1⟩
        rcases List.mem_cons.mp hq with rfl | hq3
        · exact absurd hq1 h
        · exact List.mem_map.mpr ⟨q, hq3, hq1⟩
      obtain ⟨v, hv⟩ := ih hk2
      exact ⟨v, by simp [alistGet, h, hv]⟩

theorem packageParagraphs_single (root : List String)
    (versions : List (String × Dpkg)) (mv : Bool)
    (hlen : versions.length = 1)
    (hrel : ∀ p ∈ versions, (relativeTo root p.2.filename).isSome = true) :
    packageParagraphs root versions mv
      = Except.ok (versions.map (fun p => paragraphStr root p.2)) := by
  obtain ⟨p0, hp0⟩ : ∃ p0, versions = [p0] := by
    cases versions with
    | nil => simp at hlen
    | cons p t =>
      cases t with
      | nil => exact ⟨p, rfl⟩
      | cons q u => simp at hlen
  obtain ⟨k, d⟩ := p0
  subst hp0
  unfold packageParagraphs
  rw [buildPackage_single k d mv]
  show [d].mapM (fun d' => paragraph root d') = _
  rw [List.mapM_cons,
    paragraph_eq_ok root d (hrel (k, d) (List.mem_cons_self _ _))]
  rfl

theorem buildParagraphs_single (root : List String) (tr : Tree) (mv : Bool)
    (hsingle : ∀ q ∈ tr, q.2.length = 1)
    (hrel : ∀ p ∈ singleRecordSeq tr,
      (relativeTo root p.2.filename).isSome = true) :
    buildParagraphs root tr mv
      = Except.ok ((singleRecordSeq tr).map (fun p => paragraphStr root p.2)) := by
  have hmain : ∀ (names : List String),
      (∀ name ∈ names, name ∈ tr.map Prod.fst ∧
        name ∈ isort strLe (tr.map Prod.fst)) →
      names.mapM (fun name =>
          packageParagraphs root ((alistGet tr name).getD []) mv)
        = Except.ok (names.map (fun name =>
            ((alistGet tr name).getD []).map
              (fun p => paragraphStr root p.2))) := by
    intro names
    induction names with
    | nil => intro _; rfl
    | cons n rest ih =>
      intro hmem
      obtain ⟨hn_tr, hn_isort⟩ := hmem n (List.mem_cons_self _ _)
      obtain ⟨inner, hinner⟩ := alistGet_some_of_mem_keys tr n hn_tr
      have hlen : ((alistGet tr n).getD []).length = 1 := by
        rw [hinner]
        exact hsingle (n, inner) (alistGet_mem tr n inner hinner)
      have hr : ∀ p ∈ (alistGet tr n).getD [],
          (relativeTo root p.2.filename).isSome = true := by
        intro p hp
        apply hrel (n, p.2)
        unfold singleRecordSeq
        apply List.mem_flatMap.mpr
        exact ⟨n, hn_isort, List.mem_map.mpr ⟨p, hp, rfl⟩⟩
      rw [List.mapM_cons, packageParagraphs_single root _ mv hlen hr,
        ih (fun m hm => hmem m (List.mem_cons_of_mem n hm))]
      rfl
  unfold buildParagraphs
  rw [hmain (isort strLe (tr.map Prod.fst))
    (fun name hn => ⟨(mem_isort strLe _ name).mp hn, hn⟩)]
  show Except.ok (List.flatten _) = _
  congr 1
  unfold singleRecordSeq
  rw [List.map_flatMap]
  show List.flatten _ = List.flatten _
  congr 1
  apply List.map_congr_left
  intro name _
  simp [List.map_map, Function.comp]

theorem compressLoop_ok (env : Env) (text : String) (formats : List String)
    (hfmt : ∀ f ∈ formats, (alistGet PACKAGES_COMPRESSION f).isSome = true)
    (l1 l2 l3 l4 : List String) :
    compressLoop env text
        [("MD5Sum", l1), ("SHA1", l2), ("SHA256", l3), ("SHA512", l4)] formats
      = Except.ok
          (formats.map (fun f => ("Packages" ++ f, env.compress f text)),
           [("MD5Sum", l1 ++ formats.map (fun f => mkLine env "md5" f text)),
            ("SHA1", l2 ++ formats.map (fun f => mkLine env "sha1" f text)),
            ("SHA256", l3 ++ formats.map (fun f => mkLine env "sha256" f text)),
            ("SHA512", l4 ++ formats.map (fun f => mkLine env "sha512" f text))]) := by
  induction formats generalizing l1 l2 l3 l4 with
  | nil => simp [compressLoop]
  | cons f rest ih =>
    obtain ⟨m, hm⟩ := Option.isSome_iff_exists.mp
      (hfmt f (List.mem_cons_self f rest))
    unfold compressLoop
    rw [hm]
    dsimp only
    have hfold : (computeHash env (env.compress f text)).foldl
        (fun h p => appendHash h p.1
          (p.2 ++ " " ++ toString (env.compress f text).length ++ " " ++ ("Packages" ++ f)))
        [("MD5Sum", l1), ("SHA1", l2), ("SHA256", l3), ("SHA512", l4)]
      = [("MD5Sum", l1 ++ [mkLine env "md5" f text]),
         ("SHA1", l2 ++ [mkLine env "sha1" f text]),
         ("SHA256", l3 ++ [mkLine env "sha256" f text]),
         ("SHA512", l4 ++ [mkLine env "sha512" f text])] := by
      simp only [computeHash, HASHES, List.map, actual_md5, actual_sha1,
        actual_sha256, actual_sha512, List.foldl, appendHash, mkLine,
        eq_self_iff_true, if_true,
        eq_false (show ¬("MD5Sum" : String) = "SHA1" by decide),
        eq_false (show ¬("MD5Sum" : String) = "SHA256" by decide),
        eq_false (show ¬("MD5Sum" : String) = "SHA512" by decide),
        eq_false (show ¬("SHA1" : String) = "MD5Sum" by decide),
        eq_false (show ¬("SHA1" : String) = "SHA256" by decide),
        eq_false (show ¬("SHA1" : String) = "SHA512" by decide),
        eq_false (show ¬("SHA256" : String) = "MD5Sum" by decide),
        eq_false (show ¬("SHA256" : String) = "SHA1" by decide),
        eq_false (show ¬("SHA256" : String) = "SHA512" by decide),
        eq_false (show ¬("SHA512" : String) = "MD5Sum" by decide),
        eq_false (show ¬("SHA512" : String) = "SHA1" by decide),
        eq_false (show ¬("SHA512" : String) = "SHA256" by decide),
        if_false]
    rw [hfold, ih (fun g hg => hfmt g (List.mem_cons_of_mem f hg))]
    simp [List.append_assoc]

theorem foldl_msgSet (hs : List (String × List String)) (r : Headers) :
    hs.foldl (fun r' p => msgSet r' p.1 (HVal.str (joinNl p.2))) r
      = r ++ hs.map (fun p => (p.1, HVal.str (joinNl p.2))) := by
  induction hs generalizing r with
  | nil => simp
  | cons p t ih =>
    simp only [List.foldl, List.map]
    rw [ih]
    simp [msgSet]

theorem serializeRelease_of_str (hs : Headers) (body : String)
    (h : ∀ p ∈ hs, hvalIsStr p.2 = true) :
    serializeRelease hs body = some (serializeReleaseStr hs body) := by
  unfold serializeRelease serializeReleaseStr
  have hm : hs.mapM (fun p => serializeHVal p.1 p.2)
      = some (hs.map (fun p => serializeHValStr p.1 p.2)) := by
    induction hs with
    | nil => rfl
    | cons p t ih =>
      have hp := h p (List.mem_cons_self p t)
      rw [List.mapM_cons]
      cases hv : p.2 with
      | str s =>
        rw [ih (fun q hq => h q (List.mem_cons_of_mem p hq))]
        simp [serializeHVal, serializeHValStr, hv]
      | emptyList => simp [hvalIsStr, hv] at hp
  rw [hm]
  rfl

theorem findDebs_root (t : DebianTree) (debs : List Dpkg) :
    (findDebs t debs).root = t.root := rfl

theorem findDebs_multiversion (t : DebianTree) (debs : List Dpkg) :
    (findDebs t debs).multiversion = t.multiversion := rfl

theorem findDebs_release (t : DebianTree) (debs : List Dpkg) :
    (findDebs t debs).release = t.release := rfl

theorem serializeRelease_append_str (r : Headers)
    (hs : List (String × List String)) (body : String)
    (h : ∀ p ∈ r, hvalIsStr p.2 = true) :
    serializeRelease (r ++ hs.map (fun p => (p.1, HVal.str (joinNl p.2)))) body
      = some (serializeReleaseStr
          (r ++ hs.map (fun p => (p.1, HVal.str (joinNl p.2)))) body) := by
  apply serializeRelease_of_str
  intro p hp
  rcases List.mem_append.mp hp with h1 | h1
  · exact h p h1
  · obtain ⟨q, _, rfl⟩ := List.mem_map.mp h1
    rfl

theorem buildRun_characterization (env : Env) (t : DebianTree)
    (debs : List Dpkg) (formats : List String) (hne : formats ≠ [])
    (hfmt : ∀ f ∈ formats, (alistGet PACKAGES_COMPRESSION f).isSome = true)
    (hsingle : ∀ q ∈ (findDebs t debs).tree, q.2.length = 1)
    (hrel : ∀ p ∈ singleRecordSeq (findDebs t debs).tree,
      (relativeTo t.root p.2.filename).isSome = true)
    (hstr : ∀ p ∈ t.release, hvalIsStr p.2 = true) :
    buildRun env t debs formats = Except.ok
      ({ findDebs t debs with release := finalRelease env t debs formats },
       { text := indexText t debs,
         writes := formats.map
           (fun f => ("Packages" ++ f, env.compress f (indexText t debs))),
         releaseWritten :=
           serializeReleaseStr (finalRelease env t debs formats) "" }) := by
  have hie : formats.isEmpty = false := by
    cases formats with
    | nil => exact absurd rfl hne
    | cons f r => rfl
  unfold buildRun
  rw [if_neg (by rw [hie]; exact Bool.false_ne_true)]
  dsimp only
  rw [findDebs_multiversion, findDebs_root]
  rw [buildParagraphs_single t.root (findDebs t debs).tree t.multiversion
    hsingle hrel]
  dsimp only
  rw [show HASHES.map (fun k => (_actual k, ([""] : List String)))
      = [("MD5Sum", [""]), ("SHA1", [""]), ("SHA256", [""]), ("SHA512", [""])]
    from rfl]
  rw [compressLoop_ok env _ formats hfmt [""] [""] [""] [""]]
  dsimp only
  rw [findDebs_release, foldl_msgSet]
  rw [serializeRelease_append_str _ _ _ hstr]
  rfl

theorem mem_compression_of_isSome (f : String)
    (h : (alistGet PACKAGES_COMPRESSION f).isSome = true) :
    f = ".gz" ∨ f = ".bz2" ∨ f = ".xz" := by
  by_cases h1 : ".gz" = f
  · exact Or.inl h1.symm
  by_cases h2 : ".bz2" = f
  · exact Or.inr (Or.inl h2.symm)
  by_cases h3 : ".xz" = f
  · exact Or.inr (Or.inr h3.symm)
  exfalso
  simp [alistGet, PACKAGES_COMPRESSION, h1, h2, h3] at h

/-- C10: a successful build (the version sort raises TypeError unless every
scanned package holds a single stored record, hence the single-record
hypothesis) returns the full uncompressed index text, the same text is what
each requested artifact Packages plus format suffix holds in compressed
form (in request order), and no file named just Packages is among the
written index artifacts. -/
theorem c10_text_and_compressed_artifacts (env : Env) (t : DebianTree)
    (debs : List Dpkg) (formats : List String) (hne : formats ≠ [])
    (hfmt : ∀ f ∈ formats, (alistGet PACKAGES_COMPRESSION f).isSome = true)
    (hsingle : ∀ q ∈ (findDebs t debs).tree, q.2.length = 1)
    (hrel : ∀ p ∈ singleRecordSeq (findDebs t debs).tree,
      (relativeTo t.root p.2.filename).isSome = true)
    (hstr : ∀ p ∈ t.release, hvalIsStr p.2 = true) :
    ∃ st out, buildRun env t debs formats = Except.ok (st, out) ∧
      out.text = indexText t debs ∧
      out.writes = formats.map
        (fun f => ("Packages" ++ f, env.compress f out.text)) ∧
      ∀ w ∈ out.writes, w.1 ≠ "Packages" := by
  refine ⟨_, _,
    buildRun_characterization env t debs formats hne hfmt hsingle hrel hstr,
    rfl, rfl, ?_⟩
  intro w hw
  obtain ⟨f, hf, rfl⟩ := List.mem_map.mp hw
  intro heq
  rcases mem_compression_of_isSome f (hfmt f hf) with rfl | rfl | rfl
  · exact absurd (show ("Packages" ++ ".gz" : String) = "Packages" from heq)
      (by decide)
  · exact absurd (show ("Packages" ++ ".bz2" : String) = "Packages" from heq)
      (by decide)
  · exact absurd (show ("Packages" ++ ".xz" : String) = "Packages" from heq)
      (by decide)

/-- C10 witness: the theorem applied to the concrete environment, an
empty-manifest builder, one archive and the formats gz then xz. -/
theorem c10_text_and_compressed_artifacts_witness :
    ∃ st out, buildRun envC c2St0 [fooDeb] [GZIP, XZ] = Except.ok (st, out) ∧
      out.text = indexText c2St0 [fooDeb] ∧
      out.writes = [GZIP, XZ].map
        (fun f => ("Packages" ++ f, envC.compress f out.text)) ∧
      ∀ w ∈ out.writes, w.1 ≠ "Packages" :=
  c10_text_and_compressed_artifacts envC c2St0 [fooDeb] [GZIP, XZ]
    (by decide) (by decide) (by decide) (by decide) (by decide)

/-- C7: in a successful build (only possible when every scanned package
holds a single stored record, the version sort raising TypeError otherwise)
the index text is the concatenation of one paragraph per emitted record,
and each record's paragraph is its original control fields followed by the
appended fields Filename (the path relative to the root), Size (the
archive's own size) and the digests under the canonical names MD5Sum, SHA1,
SHA256, SHA512, in that order. -/
theorem c7_paragraph_field_order (env : Env) (t : DebianTree)
    (debs : List Dpkg) (formats : List String) (hne : formats ≠ [])
    (hfmt : ∀ f ∈ formats, (alistGet PACKAGES_COMPRESSION f).isSome = true)
    (hsingle : ∀ q ∈ (findDebs t debs).tree, q.2.length = 1)
    (hrel : ∀ p ∈ singleRecordSeq (findDebs t debs).tree,
      (relativeTo t.root p.2.filename).isSome = true)
    (hstr : ∀ p ∈ t.release, hvalIsStr p.2 = true) :
    ∃ st out, buildRun env t debs formats = Except.ok (st, out) ∧
      out.text = String.join
        ((singleRecordSeq (findDebs t debs).tree).map
          (fun p => paragraphStr t.root p.2)) ∧
      ∀ p ∈ singleRecordSeq (findDebs t debs).tree,
        paragraph t.root p.2 = Except.ok (serializeMsg
          (p.2.message ++
            [("Filename", pathStr (relParts t.root p.2)),
             ("Size", toString p.2.filesize), ("MD5Sum", p.2.md5),
             ("SHA1", p.2.sha1), ("SHA256", p.2.sha256),
             ("SHA512", p.2.sha512)]) p.2.body) := by
  refine ⟨_, _,
    buildRun_characterization env t debs formats hne hfmt hsingle hrel hstr,
    rfl, ?_⟩
  intro p hp
  exact paragraph_eq_ok t.root p.2 (hrel p hp)

/-- C7 witness: the paragraph order theorem applied to the concrete
environment, an empty-manifest builder and one archive. -/
theorem c7_paragraph_field_order_witness :
    ∃ st out, buildRun envC c2St0 [fooDeb] [GZIP] = Except.ok (st, out) ∧
      out.text = String.join
        ((singleRecordSeq (findDebs c2St0 [fooDeb]).tree).map
          (fun p => paragraphStr c2St0.root p.2)) ∧
      ∀ p ∈ singleRecordSeq (findDebs c2St0 [fooDeb]).tree,
        paragraph c2St0.root p.2 = Except.ok (serializeMsg
          (p.2.message ++
            [("Filename", pathStr (relParts c2St0.root p.2)),
             ("Size", toString p.2.filesize), ("MD5Sum", p.2.md5),
             ("SHA1", p.2.sha1), ("SHA256", p.2.sha256),
             ("SHA512", p.2.sha512)]) p.2.body) :=
  c7_paragraph_field_order envC c2St0 [fooDeb] [GZIP]
    (by decide) (by decide) (by decide) (by decide) (by decide)

theorem splitNlC_no_newline (v : List Char) (h : '\n' ∉ v) :
    splitNlC v = [v] := by
  induction v with
  | nil => rfl
  | cons c t ih =>
    have hc : ¬c = '\n' := fun e => h (e ▸ List.mem_cons_self c t)
    simp only [splitNlC, if_neg hc,
      ih (fun hm => h (List.mem_cons_of_mem c hm))]

theorem splitNlC_append (v w : List Char) (h : '\n' ∉ v) :
    splitNlC (v ++ '\n' :: w) = v :: splitNlC w := by
  induction v with
  | nil => simp [splitNlC]
  | cons c t ih =>
    have hc : ¬c = '\n' := fun e => h (e ▸ List.mem_cons_self c t)
    simp only [List.cons_append, splitNlC, if_neg hc]
    rw [show t.append ('\n' :: w) = t ++ '\n' :: w from rfl,
      ih (fun hm => h (List.mem_cons_of_mem c hm))]

theorem splitNl_joinNl (lines : List String)
    (h : ∀ l ∈ lines, '\n' ∉ l.data) (hne : lines ≠ []) :
    splitNl (joinNl lines) = lines := by
  induction lines with
  | nil => exact absurd rfl hne
  | cons s rest ih =>
    cases rest with
    | nil =>
      show splitNl (joinNl [s]) = [s]
      unfold splitNl joinNl
      rw [splitNlC_no_newline s.data (h s (List.mem_cons_self s []))]
      simp [string_mk_data]
    | cons s2 r2 =>
      have hj : joinNl (s :: s2 :: r2) = s ++ "\n" ++ joinNl (s2 :: r2) := rfl
      have hd : (s ++ "\n" ++ joinNl (s2 :: r2)).data
          = s.data ++ '\n' :: (joinNl (s2 :: r2)).data := by
        simp [String.data_append]
      unfold splitNl
      rw [hj, hd, splitNlC_append _ _ (h s (List.mem_cons_self s _))]
      simp only [List.map, string_mk_data]
      have hrest := ih (fun l hl => h l (List.mem_cons_of_mem s hl))
        (by simp)
      unfold splitNl at hrest
      rw [hrest]

theorem digitChar_ne_newline (n : Nat) : Nat.digitChar n ≠ '\n' := by
  by_cases h0 : n = 0
  · subst h0
    decide
  by_cases h1 : n = 1
  · subst h1
    decide
  by_cases h2 : n = 2
  · subst h2
    decide
  by_cases h3 : n = 3
  · subst h3
    decide
  by_cases h4 : n = 4
  · subst h4
    decide
  by_cases h5 : n = 5
  · subst h5
    decide
  by_cases h6 : n = 6
  · subst h6
    decide
  by_cases h7 : n = 7
  · subst h7
    decide
  by_cases h8 : n = 8
  · subst h8
    decide
  by_cases h9 : n = 9
  · subst h9
    decide
  by_cases h10 : n = 10
  · subst h10
    decide
  by_cases h11 : n = 11
  · subst h11
    decide
  by_cases h12 : n = 12
  · subst h12
    decide
  by_cases h13 : n = 13
  · subst h13
    decide
  by_cases h14 : n = 14
  · subst h14
    decide
  by_cases h15 : n = 15
  · subst h15
    decide
  simp only [Nat.digitChar, if_neg h0, if_neg h1, if_neg h2, if_neg h3, if_neg h4, if_neg h5, if_neg h6, if_neg h7, if_neg h8, if_neg h9, if_neg h10, if_neg h11, if_neg h12, if_neg h13, if_neg h14, if_neg h15]
  decide

theorem toDigitsCore_ne_newline (b fuel : Nat) :
    ∀ (n : Nat) (acc : List Char), (∀ c ∈ acc, c ≠ '\n') →
    ∀ c ∈ Nat.toDigitsCore b fuel n acc, c ≠ '\n' := by
  induction fuel with
  | zero => exact fun n acc hacc => hacc
  | succ fuel ih =>
    intro n acc hacc
    unfold Nat.toDigitsCore
    dsimp only
    by_cases h : n / b = 0
    · rw [if_pos h]
      intro c hc
      rcases List.mem_cons.mp hc with rfl | hc
      · exact digitChar_ne_newline _
      · exact hacc c hc
    · rw [if_neg h]
      apply ih
      intro c hc
      rcases List.mem_cons.mp hc with rfl | hc
      · exact digitChar_ne_newline _
      · exact hacc c hc

theorem toString_nat_ne_newline (n : Nat) : '\n' ∉ (toString n).data := by
  intro h
  have hd : (toString n).data = Nat.toDigitsCore 10 (n + 1) n [] := rfl
  rw [hd] at h
  exact toDigitsCore_ne_newline 10 (n + 1) n []
    (fun c hc => absurd hc (List.not_mem_nil c)) '\n' h rfl

theorem mkLine_data (env : Env) (k f text : String) :
    (mkLine env k f text).data
      = (env.hashHex k (env.compress f text)).data ++
          (' ' :: ((toString (env.compress f text).length).data ++
            (' ' :: ("Packages".data ++ f.data)))) := by
  simp [mkLine, String.data_append]

theorem mkLine_no_newline (env : Env) (k f text : String)
    (hhex : '\n' ∉ (env.hashHex k (env.compress f text)).data)
    (hf : '\n' ∉ f.data) : '\n' ∉ (mkLine env k f text).data := by
  rw [mkLine_data]
  intro h
  rcases List.mem_append.mp h with h1 | h1
  · exact hhex h1
  rcases List.mem_cons.mp h1 with h2 | h2
  · exact absurd h2 (by decide)
  rcases List.mem_append.mp h2 with h3 | h3
  · exact toString_nat_ne_newline _ h3
  rcases List.mem_cons.mp h3 with h4 | h4
  · exact absurd h4 (by decide)
  rcases List.mem_append.mp h4 with h5 | h5
  · exact absurd h5 (by decide)
  · exact hf h5

theorem mkLine_ne_empty (env : Env) (k f text : String) :
    mkLine env k f text ≠ "" := by
  intro h
  have hd := congrArg String.data h
  rw [mkLine_data] at hd
  simp at hd

theorem digest_lines_of_value (lines : List String)
    (hnl : ∀ l ∈ lines, '\n' ∉ l.data) (hne : ∀ l ∈ lines, l ≠ "") :
    (splitNl (joinNl ("" :: lines))).filter (fun l => l ≠ "") = lines := by
  have hsplit : splitNl (joinNl ("" :: lines)) = "" :: lines := by
    apply splitNl_joinNl
    · intro l hl
      rcases List.mem_cons.mp hl with rfl | hl
      · exact fun hm => absurd hm (List.not_mem_nil _)
      · exact hnl l hl
    · simp
  rw [hsplit, List.filter_cons_of_neg (by simp)]
  exact List.filter_eq_self.mpr (fun l hl => by simp [hne l hl])

theorem filter_four_1 {α : Type} (p : α → Bool) (a b c d : α)
    (ha : p a = true) (hb : p b = false) (hc : p c = false)
    (hd : p d = false) : [a, b, c, d].filter p = [a] := by
  simp [List.filter, ha, hb, hc, hd]

theorem filter_four_2 {α : Type} (p : α → Bool) (a b c d : α)
    (ha : p a = false) (hb : p b = true) (hc : p c = false)
    (hd : p d = false) : [a, b, c, d].filter p = [b] := by
  simp [List.filter, ha, hb, hc, hd]

theorem filter_four_3 {α : Type} (p : α → Bool) (a b c d : α)
    (ha : p a = false) (hb : p b = false) (hc : p c = true)
    (hd : p d = false) : [a, b, c, d].filter p = [c] := by
  simp [List.filter, ha, hb, hc, hd]

theorem filter_four_4 {α : Type} (p : α → Bool) (a b c d : α)
    (ha : p a = false) (hb : p b = false) (hc : p c = false)
    (hd : p d = true) : [a, b, c, d].filter p = [d] := by
  simp [List.filter, ha, hb, hc, hd]

theorem digestLines_finalRelease (env : Env) (t : DebianTree)
    (debs : List Dpkg) (formats : List String) (k : String) (hk : k ∈ HASHES)
    (hclean : ∀ p ∈ t.release, lowerStr p.1 ∉
      (["md5", "md5sum", "sha1", "sha256", "sha512"] : List String))
    (hfmt : ∀ f ∈ formats, (alistGet PACKAGES_COMPRESSION f).isSome = true)
    (hhex : ∀ k' s, '\n' ∉ (env.hashHex k' s).data) :
    digestLines (finalRelease env t debs formats) (_actual k)
      = formats.map (fun f => mkLine env k f (indexText t debs)) := by
  have hk4 : k = "md5" ∨ k = "sha1" ∨ k = "sha256" ∨ k = "sha512" := by
    simpa [HASHES] using hk
  have hlines : ∀ l ∈ formats.map (fun f => mkLine env k f (indexText t debs)),
      '\n' ∉ l.data := by
    intro l hl
    obtain ⟨f, hf, rfl⟩ := List.mem_map.mp hl
    apply mkLine_no_newline env k f _ (hhex k _)
    rcases mem_compression_of_isSome f (hfmt f hf) with rfl | rfl | rfl <;>
      decide
  have hnem : ∀ l ∈ formats.map (fun f => mkLine env k f (indexText t debs)),
      l ≠ "" := by
    intro l hl
    obtain ⟨f, _, rfl⟩ := List.mem_map.mp hl
    exact mkLine_ne_empty env k f _
  unfold digestLines finalRelease
  rw [List.filter_append]
  have h1 : t.release.filter
      (fun p => lowerStr p.1 == lowerStr (_actual k)) = [] := by
    rw [List.filter_eq_nil_iff]
    intro p hp hbe
    rw [beq_iff_eq] at hbe
    apply hclean p hp
    rw [hbe]
    rcases hk4 with rfl | rfl | rfl | rfl <;> decide
  rw [h1, List.nil_append]
  rcases hk4 with rfl | rfl | rfl | rfl
  · simp only [HASHES, List.map, digestHeader, actual_md5, actual_sha1,
      actual_sha256, actual_sha512]
    rw [filter_four_1 _ _ _ _ _ rfl rfl rfl rfl]
    simp only [List.flatMap_cons, List.flatMap_nil, List.append_nil]
    exact digest_lines_of_value _ hlines hnem
  · simp only [HASHES, List.map, digestHeader, actual_md5, actual_sha1,
      actual_sha256, actual_sha512]
    rw [filter_four_2 _ _ _ _ _ rfl rfl rfl rfl]
    simp only [List.flatMap_cons, List.flatMap_nil, List.append_nil]
    exact digest_lines_of_value _ hlines hnem
  · simp only [HASHES, List.map, digestHeader, actual_md5, actual_sha1,
      actual_sha256, actual_sha512]
    rw [filter_four_3 _ _ _ _ _ rfl rfl rfl rfl]
    simp only [List.flatMap_cons, List.flatMap_nil, List.append_nil]
    exact digest_lines_of_value _ hlines hnem
  · simp only [HASHES, List.map, digestHeader, actual_md5, actual_sha1,
      actual_sha256, actual_sha512]
    rw [filter_four_4 _ _ _ _ _ rfl rfl rfl rfl]
    simp only [List.flatMap_cons, List.flatMap_nil, List.append_nil]
    exact digest_lines_of_value _ hlines hnem

theorem clearHashes_clean (release0 : List (String × String))
    (hclean : ∀ p ∈ release0, lowerStr p.1 ∉
      (["md5", "md5sum", "sha1", "sha256", "sha512"] : List String)) :
    clearHashes (release0.map (fun p => (p.1, HVal.str p.2)))
      = release0.map (fun p => (p.1, HVal.str p.2)) := by
  have hmc : ∀ k : String, lowerStr k ∈
      (["md5", "md5sum", "sha1", "sha256", "sha512"] : List String) →
      msgContains (release0.map (fun p => (p.1, HVal.str p.2))) k = false := by
    intro k hkl
    unfold msgContains
    rw [List.any_eq_false]
    intro p hp hbe
    obtain ⟨q, hq, rfl⟩ := List.mem_map.mp hp
    rw [beq_iff_eq] at hbe
    apply hclean q hq
    rw [show lowerStr (q.1, HVal.str q.2).1 = lowerStr k from hbe] at *
    exact hkl
  unfold clearHashes HASHES
  simp [hmc "md5" (by decide), hmc "sha1" (by decide),
    hmc "sha256" (by decide), hmc "sha512" (by decide)]

/-- C3 amended: when the pre-existing manifest carries no digest-kind field
(under any capitalization of md5, md5sum, sha1, sha256, sha512) and every
scanned package holds a single stored record (two or more make the version
sort raise TypeError, so no build succeeds then), a successful build leaves
each of the four digest-kind fields of the persisted manifest with exactly
one entry per requested compression format, in request order, each entry
the line hex digest, size and artifact name of that format's compressed
index. -/
theorem c3_amended_digest_fields (env : Env) (root : List String)
    (release0 : List (String × String)) (dt : String) (arch : Option String)
    (mv : Bool) (debs : List Dpkg) (formats : List String)
    (hne : formats ≠ [])
    (hfmt : ∀ f ∈ formats, (alistGet PACKAGES_COMPRESSION f).isSome = true)
    (hsingle : ∀ q ∈
        (findDebs (DebianTree.mkInit root release0 dt arch mv) debs).tree,
      q.2.length = 1)
    (hrel : ∀ p ∈ singleRecordSeq
        (findDebs (DebianTree.mkInit root release0 dt arch mv) debs).tree,
      (relativeTo root p.2.filename).isSome = true)
    (hclean : ∀ p ∈ release0, lowerStr p.1 ∉
      (["md5", "md5sum", "sha1", "sha256", "sha512"] : List String))
    (hhex : ∀ k s, '\n' ∉ (env.hashHex k s).data) :
    ∃ st out, buildRun env (DebianTree.mkInit root release0 dt arch mv) debs
        formats = Except.ok (st, out) ∧
      ∀ k ∈ HASHES, digestLines st.release (_actual k)
        = formats.map (fun f => mkLine env k f out.text) := by
  have hinit : (DebianTree.mkInit root release0 dt arch mv).release
      = release0.map (fun p => (p.1, HVal.str p.2)) := by
    rw [show (DebianTree.mkInit root release0 dt arch mv).release
        = clearHashes (release0.map (fun p => (p.1, HVal.str p.2))) from rfl,
      clearHashes_clean release0 hclean]
  have hstr : ∀ p ∈ (DebianTree.mkInit root release0 dt arch mv).release,
      hvalIsStr p.2 = true := by
    intro p hp
    rw [hinit] at hp
    obtain ⟨q, _, rfl⟩ := List.mem_map.mp hp
    rfl
  have hcl2 : ∀ p ∈ (DebianTree.mkInit root release0 dt arch mv).release,
      lowerStr p.1 ∉
        (["md5", "md5sum", "sha1", "sha256", "sha512"] : List String) := by
    intro p hp
    rw [hinit] at hp
    obtain ⟨q, hq, rfl⟩ := List.mem_map.mp hp
    exact hclean q hq
  refine ⟨_, _,
    buildRun_characterization env (DebianTree.mkInit root release0 dt arch mv)
      debs formats hne hfmt hsingle hrel hstr, ?_⟩
  intro k hk
  exact digestLines_finalRelease env _ debs formats k hk hcl2 hfmt hhex

/-- C3 amended witness: the digest-field theorem applied to a clean
manifest holding only an Origin field, one archive and one format. -/
theorem c3_amended_digest_fields_witness :
    ∃ st out, buildRun c3Env
        (DebianTree.mkInit ["r"] [("Origin", "X")] "deb" none true)
        [fooDeb] [GZIP] = Except.ok (st, out) ∧
      ∀ k ∈ HASHES, digestLines st.release (_actual k)
        = [GZIP].map (fun f => mkLine c3Env k f out.text) :=
  c3_amended_digest_fields c3Env ["r"] [("Origin", "X")] "deb" none true
    [fooDeb] [GZIP] (by decide) (by decide) (by decide) (by decide) (by decide)
    (fun _ _ => (by decide : '\n' ∉ ("beef" : String).data))

end Cider
